import Mathlib

/-!
Verification development for the inspigtor kernel (PiCCO2 reader, pigs pool,
pigs groups). The Python kernel is shallowly embedded: the `Time` column is a
list of seconds-of-day values, measured-variable columns are lists of
`Option ℚ` (a `none` cell is a value that does not parse as a float), and the
`datetime`/`timedelta` arithmetic of the source is carried out on `Nat`/`Int`
with the mod-86400 normalization that `timedelta.seconds` performs.
-/

namespace Inspigtor

/-- Seconds field of the Python timedelta `t1 - t0` for two same-day
`datetime.strptime` values given as seconds-of-day: `timedelta.seconds` is the
difference normalized into `[0, 86400)`. -/
def tdSeconds (t1 t0 : Nat) : Nat :=
  (((t1 : Int) - (t0 : Int)) % 86400).toNat

/-- First index `t` in the half-open index range `[s, s+n)` satisfying `p`,
scanning upwards; `none` when no index matches.  This is the shape of every
first-match loop in the reader. -/
def findFirst (s n : Nat) (p : Nat → Bool) : Option Nat :=
  (List.range' s n).find? p

/-- List of the Python expression `range(a, b)` over `int` arguments. -/
def pyRange (a b : Int) : List Int :=
  (List.range (b - a).toNat).map (fun (k : Nat) => a + (k : Int))

/-! Embedding of `PiCCO2FileReader.set_record_intervals`
(src/inspigtor/kernel/readers/picco2_reader.py, lines 259-324).  The `Time`
column of the sorted data frame is a list `times : List Nat` of seconds-of-day
values; `times.getD t 0` plays the role of
`datetime.strptime(self._data[...].iloc[t])`. -/

/-- Embedding of `PiCCO2FileReader.get_t_final_index`: the first row index
whose time is strictly later than `Tfinal` (the loop tests
`(Tfinal - time).days < 0`), or the number of rows when there is none. -/
def get_t_final_index (times : List Nat) (tfinal : Nat) : Nat :=
  (findFirst 0 times.length (fun i => decide (tfinal < times.getD i 0))).getD times.length

/-- Elapsed seconds of row `t` relative to the reference row `anchor`,
mirroring `(strptime(Time[t]) - strptime(Time[anchor])).seconds`. -/
def rowDelta (times : List Nat) (anchor t : Nat) : Nat :=
  tdSeconds (times.getD t 0) (times.getD anchor 0)

/-- First and last row index of the bounded region of one window spec:
scanning rows `[tm10, tmax)`, `first` is the first row whose delta against the
`t_minus_10` row lies in `[startS, endS)` and `last` is the first row whose
delta is at least `endS` (having already reached `startS`), mirroring the
`enter_interval` and `exit_interval` flags of the source. -/
def findRegion (times : List Nat) (tm10 tmax startS endS : Nat) :
    Option Nat × Option Nat :=
  (findFirst tm10 (tmax - tm10)
      (fun t => decide (startS ≤ rowDelta times tm10 t) &&
                decide (rowDelta times tm10 t < endS)),
   findFirst tm10 (tmax - tm10)
      (fun t => decide (startS ≤ rowDelta times tm10 t) &&
                decide (endS ≤ rowDelta times tm10 t)))

/-- One iteration of the inner loop of `set_record_intervals` (lines 312-324):
the state is `(starting_index, delta_ts, accumulated record intervals)`.  The
current row `t` is appended to `delta_ts`; when its elapsed time exceeds
`record + offset`, the first recorded row whose elapsed time exceeds `record`
closes the interval `(starting_index, r_index)` and the anchor resets to `t`. -/
def walkStep (times : List Nat) (record offset : Nat)
    (st : Nat × List (Nat × Nat) × List (Nat × Nat)) (t : Nat) :
    Nat × List (Nat × Nat) × List (Nat × Nat) :=
  if record + offset < rowDelta times st.1 t then
    match (st.2.1 ++ [(t, rowDelta times st.1 t)]).find?
        (fun p => decide (record < p.2)) with
    | some rp => (t, [], st.2.2 ++ [(st.1, rp.1)])
    | none => (t, [], st.2.2)
  else
    (st.1, st.2.1 ++ [(t, rowDelta times st.1 t)], st.2.2)

/-- Record intervals produced by the inner walk of `set_record_intervals` over
the bounded region `[first, last)`. -/
def recordWalk (times : List Nat) (record offset first last : Nat) :
    List (Nat × Nat) :=
  ((List.range' first (last - first)).foldl (walkStep times record offset)
    (first, [], [])).2.2

/-- Embedding of the per-spec body of `set_record_intervals`, threading the
Python local variable `first_record_index`, which survives from one window
spec to the next (it is only rebound when the new region search succeeds); a
call in which it is never bound raises `NameError`, modelled as `none`. -/
def setRecordIntervalsAux (times : List Nat) (tm10 tmax : Nat) :
    Option Nat → List (Nat × Nat × Nat × Nat) → Option (List (Nat × Nat))
  | _, [] => some []
  | staleFirst, (startS, endS, record, offset) :: specs =>
    let fl := findRegion times tm10 tmax startS endS
    match fl.1 <|> staleFirst with
    | none => none
    | some first =>
      let last := fl.2.getD times.length
      match setRecordIntervalsAux times tm10 tmax (some first) specs with
      | none => none
      | some rest => some (recordWalk times record offset first last ++ rest)

/-- Embedding of `PiCCO2FileReader.set_record_intervals`: `times` is the
sorted `Time` column, `tm10` the stored `t_minus_10_index`, `tfinal` the
`Tfinal` parameter, and each spec is `(start, end, record, offset)` with
`start` and `end` already converted to seconds-of-day. -/
def set_record_intervals (times : List Nat) (tm10 : Nat) (tfinal : Nat)
    (specs : List (Nat × Nat × Nat × Nat)) : Option (List (Nat × Nat)) :=
  setRecordIntervalsAux times tm10 (get_t_final_index times tfinal) none specs

/-- First row of `[anchor, last)` whose elapsed time from `anchor` exceeds
`bound`. -/
def firstTrigger (times : List Nat) (bound anchor last : Nat) : Option Nat :=
  findFirst anchor (last - anchor) (fun t => decide (bound < rowDelta times anchor t))

/-- Closed-form description of the walk of `set_record_intervals`, used for
the amended statement of the window-walk claim: each cycle keeps the rows from
the anchor up to (excluding) the first row whose elapsed time exceeds
`record`; the cycle ends and the next anchor is placed at the first row whose
elapsed time exceeds `record + offset`; a region whose tail never exceeds
`record + offset` produces no further interval. -/
def recordCycles (times : List Nat) (record offset : Nat) :
    Nat → Nat → Nat → List (Nat × Nat)
  | 0, _, _ => []
  | fuel + 1, anchor, last =>
    match firstTrigger times (record + offset) anchor last with
    | none => []
    | some cut =>
      match firstTrigger times record anchor last with
      | some r => (anchor, r) :: recordCycles times record offset fuel cut last
      | none => recordCycles times record offset fuel cut last

/-- Modelled from the spec: the offset-first walk that the spec describes for
offset/record windows — within the bounded region, elapsed time accumulates
from a moving anchor, the first `offset` seconds of elapsed time are
discarded, the next `record` seconds are kept as one record interval, then the
anchor resets and the cycle repeats until the region is exhausted. -/
def offsetRecordCycles (times : List Nat) (record offset : Nat) :
    Nat → Nat → Nat → List (Nat × Nat)
  | 0, _, _ => []
  | fuel + 1, anchor, last =>
    match findFirst anchor (last - anchor)
        (fun t => decide (offset + record ≤ rowDelta times anchor t)) with
    | none => []
    | some cut =>
      match findFirst anchor (last - anchor)
          (fun t => decide (offset ≤ rowDelta times anchor t)) with
      | some k => (k, cut) :: offsetRecordCycles times record offset fuel cut last
      | none => offsetRecordCycles times record offset fuel cut last

/-! Embedding of the statistics side of `PiCCO2FileReader`
(src/inspigtor/kernel/readers/picco2_reader.py).  A measured-variable column
is a `List (Option ℚ)`: `some q` is a cell whose string parses as a float,
`none` one that raises `ValueError` in `float(...)`. -/

/-- Typed reader errors; each constructor stands for one error raised in the
source.  `emptyInterval i f` is the `PiCCO2FileReaderError` whose message
names the 1-based interval index `i` and the file `f` (the interval does not
contain any number); `invalidTinitial` is the error with message
`Invalid value for Tinitial parameters`; `indexError` models the uncaught
Python `IndexError` on an out-of-range interval index. -/
inductive ReaderError
  | unknownProperty (p : String)
  | noRecordIntervals
  | indexError
  | emptyInterval (oneBased : Nat) (filename : String)
  | invalidTinitial
deriving DecidableEq, Repr

/-- Python mean `np.average` of a list of parsed values. -/
def listMean (l : List ℚ) : ℚ := l.sum / l.length

/-- Slice of the per-interval entries of the cached statistics dict that the
claims are about: the 1-based interval indexes (`intervals` key), the parsed
values per interval (`data` key) and their means (`averages` key).  The other
keys of the source dict (`stddevs`, `medians`, quantiles, `skewnesses`,
`kurtosis`) are pointwise numeric reductions of `data` (square roots and order
statistics) that no claim mentions. -/
structure DescStats where
  intervals : List Nat
  data : List (List ℚ)
  averages : List ℚ
deriving DecidableEq, Repr

/-- State of one `PiCCO2FileReader`: the filename, the measured-variable
columns of the sorted data frame keyed by name, the current record intervals,
and the statistics cache keyed by property name. -/
structure Reader where
  filename : String
  columns : List (String × List (Option ℚ))
  record_intervals : List (Nat × Nat)
  statistics : List (String × DescStats)
deriving DecidableEq, Repr

deriving instance DecidableEq for Except

/-- Parseable float values of `column` over the half-open row range of one
record interval (the inner `for j in range(first_index, last_index)` loop with
its `try: float(...) except ValueError: continue`). -/
def collectData (column : List (Option ℚ)) (iv : Nat × Nat) : List ℚ :=
  (List.range' iv.1 (iv.2 - iv.1)).filterMap (fun j => column.getD j none)

/-- Loop of `get_descriptive_statistics` over the requested interval indexes.
Returns the statistics accumulated so far together with the error that stopped
the loop, if any — on a raise, Python leaves the partially filled dict in the
cache. -/
def statsLoop (filename : String) (column : List (Option ℚ))
    (ivs : List (Nat × Nat)) : List Nat → DescStats → DescStats × Option ReaderError
  | [], ds => (ds, none)
  | index :: rest, ds =>
    match ivs[index]? with
    | none => (ds, some ReaderError.indexError)
    | some iv =>
      let data := collectData column iv
      if data.isEmpty then (ds, some (ReaderError.emptyInterval (index + 1) filename))
      else
        statsLoop filename column ivs rest
          { intervals := ds.intervals ++ [index + 1]
            data := ds.data ++ [data]
            averages := ds.averages ++ [listMean data] }

/-- Embedding of `PiCCO2FileReader.get_descriptive_statistics` (lines
154-207): unknown-property check, cache check (keyed by property name only),
no-record-intervals check, default interval indexes, then the per-interval
loop; the returned reader carries the updated cache (set even when the loop
stops with an error, as in the source). -/
def get_descriptive_statistics (r : Reader) (prop : String)
    (interval_indexes : Option (List Nat)) :
    Reader × Except ReaderError DescStats :=
  match r.columns.lookup prop with
  | none => (r, Except.error (ReaderError.unknownProperty prop))
  | some column =>
    match r.statistics.lookup prop with
    | some ds => (r, Except.ok ds)
    | none =>
      if r.record_intervals.isEmpty then
        (r, Except.error ReaderError.noRecordIntervals)
      else
        let idxs := interval_indexes.getD (List.range r.record_intervals.length)
        let res := statsLoop r.filename column r.record_intervals idxs
          { intervals := [], data := [], averages := [] }
        let r' := { r with statistics := (prop, res.1) :: r.statistics }
        match res.2 with
        | some e => (r', Except.error e)
        | none => (r', Except.ok res.1)

/-- Embedding of `PiCCO2FileReader.t_interval_index`: index of the first
record interval whose ending time is strictly later than `time`
(`delta_t.days < 0`), or `-1` when none matches. -/
def t_interval_index (times : List Nat) (ivs : List (Nat × Nat)) (time : Nat) :
    Int :=
  match findFirst 0 ivs.length
      (fun i => decide (time < times.getD ((ivs.getD i (0, 0)).2 - 1) 0)) with
  | some i => (i : Int)
  | none => -1

/-- Interval indexes selected per subject inside `PigsPool.premortem_statistics`
(src/inspigtor/kernel/pigs/pigs_pool.py, line 233): the interval before
`Tinitial` followed by the `n_last_intervals` last intervals up to
`t_final_interval_index`. -/
def premortem_interval_indexes (n : Nat) (ti tf : Int) : List Int :=
  [ti - 1] ++ pyRange (tf - (n : Int) + 1) (tf + 1)

/-- Embedding of the reference-time computation of the reader constructor
(lines 92-101): `td` is the timedelta `strptime(Tinitial) - strptime(00:10:00)`
in seconds; the fallback branch (with its warning) is taken when `td.days < 0`
or `td.seconds < 600`, and otherwise the reference time is
`Tinitial - 10 minutes`.  Returns the reference time in seconds-of-day and
whether the warning branch was taken. -/
def mkReference (tinitial expStart : Nat) : Nat × Bool :=
  let td : Int := (tinitial : Int) - 600
  if td < 0 ∨ td % 86400 < 600 then (expStart, true)
  else (tinitial - 600, false)

/-- Reference time used by the constructor for the `delta_t` column, with
`expStart` taken from the first row of the sorted data. -/
def referenceTime (times : List Nat) (tinitial : Nat) : Nat :=
  (mkReference tinitial (times.getD 0 0)).1

/-- First row index whose `delta_t` against the reference time is non-negative
(`delta_t.days >= 0` in the constructor loop, lines 103-119). -/
def t_minus_10_search (times : List Nat) (ref : Nat) : Option Nat :=
  findFirst 0 times.length (fun i => decide (ref ≤ times.getD i 0))

/-- Embedding of the tail of the reader constructor (lines 103-122): the
stored `t_minus_10_index` on success, or the typed error with message
`Invalid value for Tinitial parameters` when no row lies at or after the
reference time. -/
def mkTableIndex (times : List Nat) (tinitial : Nat) : Except ReaderError Nat :=
  match t_minus_10_search times (referenceTime times tinitial) with
  | none => Except.error ReaderError.invalidTinitial
  | some i => Except.ok i

/-! Embedding of `PigsPool` (src/inspigtor/kernel/pigs/pigs_pool.py) and
`PigsGroups` (src/inspigtor/kernel/pigs/pigs_groups.py) over the `Reader`
model, as the source is written.  The central fact of this layer is that the
per-pig fetch inside `PigsPool.get_statistics` passes the keyword argument
`selected_statistics` to `PiCCO2FileReader.get_descriptive_statistics`,
which does not declare that parameter: Python raises `TypeError` while
binding the call, before the reader body runs, and the surrounding
`except PiCCO2FileReaderError` clause does not catch it.  `get_statistics`
therefore never returns its matrix (`get_statistics_never_ok` below), and
everything downstream of a returned matrix is dead code; the dead arms are
embedded from the source text all the same. -/

/-- Parameter names that `PiCCO2FileReader.get_descriptive_statistics`
declares besides `self` (picco2_reader.py line 154). -/
def readerStatsParams : List String := ["selected_property", "interval_indexes"]

/-- Keyword-argument names that the reader call inside
`PigsPool.get_statistics` passes (pigs_pool.py lines 136-137). -/
def poolFetchKwargs : List String := ["selected_statistics", "interval_indexes"]

/-- Key names of a fully computed statistics dict of
`get_descriptive_statistics` (picco2_reader.py lines 197-205); `mean` is not
among them. -/
def descStatsKeys : List String :=
  ["intervals", "data", "averages", "stddevs", "medians", "1st quantiles",
   "3rd quantiles", "skewnesses", "kurtosis"]

/-- Dict entry for a key, restricted to the numeric per-interval entry that
`DescStats` carries (the other numeric entries are irrational-valued
reductions of `data` and are never reached by the pool code). -/
def descStatsEntry (ds : DescStats) (name : String) : List ℚ :=
  if name == "averages" then ds.averages else []

/-- Exceptions escaping `PigsPool.get_statistics` and
`PigsPool.evaluate_global_time_effect`: the Python `TypeError` for a keyword
argument the callee does not declare (named after the offending keyword), the
`PigsPoolError` naming an unknown statistics (pigs_pool.py line 143), the
`PigsPoolError` with message `No statistics computed for pool` (line 153),
and the scipy `ValueError` that `friedmanchisquare` raises on fewer than 3
samples. -/
inductive PoolException
  | typeError (kwarg : String)
  | unknownStatistic (name : String)
  | noStatistics
  | friedmanNeedsThree
deriving DecidableEq, Repr

/-- Symbolic p-value: the scipy tests cannot be embedded numerically, so a
p-value records which statistical test was run and on which samples (or NaN
when no test was run). -/
inductive PValue
  | nan
  | mannwhitney (samples : List (List ℚ))
  | kruskal (samples : List (List ℚ))
  | friedman (samples : List (List ℚ))
deriving DecidableEq, Repr

/-- Running maximum `max_n_intervals` over the collected statistic
sequences. -/
def maxNIntervals (l : List (List ℚ)) : Nat :=
  l.foldl (fun m s => max m s.length) 0

/-- Matrix `np.full((rows, cols), np.nan)`; a NaN cell is `none`. -/
def nanMatrix (rows cols : Nat) : List (List (Option ℚ)) :=
  List.replicate rows (List.replicate cols none)

/-- Column assignment `output[0:len(s), i] = s`: row `r` receives `s[r]` at
column `i` for every `r < len(s)`. -/
def setColumn : List (List (Option ℚ)) → Nat → List ℚ → List (List (Option ℚ))
  | [], _, _ => []
  | rows, _, [] => rows
  | row :: rows, i, v :: vs => row.set i (some v) :: setColumn rows i vs

/-- Loop of `PigsPool.get_statistics` over the pool's readers (pigs_pool.py
lines 133-150).  Each iteration first binds the call
`reader.get_descriptive_statistics(selected_property,
selected_statistics=[selected_statistics], interval_indexes=interval_indexes)`
against the reader's declared parameters; the keyword `selected_statistics`
is not among them, so the binding raises `TypeError`, which the
`except PiCCO2FileReaderError` clause does not catch.  The remaining arms
follow the source text for a binding that succeeded — a reader error is
logged and the pig skipped, a dict without the selected statistics raises the
`PigsPoolError` naming it (line 143), otherwise the entry is collected — but
they are dead for the call as written. -/
def getStatisticsLoop (prop stat : String) (idxs : Option (List Nat)) :
    List Reader → List (List ℚ) → Except PoolException (List (List ℚ))
  | [], all => Except.ok all
  | r :: rest, all =>
    match poolFetchKwargs.find? (fun k => ! readerStatsParams.contains k) with
    | some k => Except.error (PoolException.typeError k)
    | none =>
      match (get_descriptive_statistics r prop idxs).2 with
      | Except.error _ => getStatisticsLoop prop stat idxs rest all
      | Except.ok ds =>
        if descStatsKeys.contains stat then
          getStatisticsLoop prop stat idxs rest (all ++ [descStatsEntry ds stat])
        else Except.error (PoolException.unknownStatistic stat)

/-- Embedding of `PigsPool.get_statistics` (pigs_pool.py lines 114-160) as
written: the reader loop, then `PigsPoolError` when no statistics were
collected, then the NaN matrix of shape `(max_n_intervals, n_pigs)` filled
column by column.  The matrix tail is unreachable: with at least one pig the
loop raises `TypeError` at its first iteration, and with none it collects
nothing (`get_statistics_never_ok`). -/
def get_statistics (pigs : List Reader) (prop stat : String)
    (idxs : Option (List Nat)) : Except PoolException (List (List (Option ℚ))) :=
  match getStatisticsLoop prop stat idxs pigs [] with
  | Except.error e => Except.error e
  | Except.ok all =>
    if all.isEmpty then Except.error PoolException.noStatistics
    else
      Except.ok (all.enum.foldl (fun m p => setColumn m p.1 p.2)
        (nanMatrix (maxNIntervals all) pigs.length))

/-- Dense row: no NaN across the subjects (`not np.isnan(averages).any()`). -/
def denseRow (row : List (Option ℚ)) : Bool :=
  row.all (fun c => c.isSome)

/-- Embedding of `PigsPool.evaluate_global_time_effect` (pigs_pool.py lines
53-80) as written: only `PiCCO2FileReaderError` is caught around the
`get_statistics` call, so both the `TypeError` from the reader call and the
`PigsPoolError` raises propagate unchanged; the dense-row filtering and the
Friedman test of lines 70-80 (embedded from the source text: rows with any
NaN are skipped and `friedmanchisquare` receives the surviving rows, raising
when they number fewer than 3) run only on a returned matrix, which
`get_statistics` never produces. -/
def evaluate_global_time_effect (pigs : List Reader) (prop : String)
    (idxs : Option (List Nat)) : Except PoolException (List Nat × PValue) :=
  match get_statistics pigs prop "mean" idxs with
  | Except.error e => Except.error e
  | Except.ok m =>
    let st := m.enum.foldl
      (fun (st : List Nat × List (List ℚ)) p =>
        if denseRow p.2 then (st.1 ++ [p.1], st.2 ++ [p.2.filterMap id]) else st)
      ([], [])
    if st.2.length < 3 then Except.error PoolException.friedmanNeedsThree
    else Except.ok (st.1, PValue.friedman st.2)

/-- Exceptions escaping `PigsGroups.evaluate_global_group_effect`: the
`PigsGroupsError` for fewer than two selected groups, the `PigsGroupsError`
raised from a caught `PigsPoolError` (pigs_groups.py lines 90-91), the
uncaught Python `TypeError` coming from inside `get_statistics`, the
`ValueError` from unpacking a returned matrix without exactly two rows, and
the `IndexError` that `averages[i, :]` raises on the one-dimensional row the
unpacking would store (line 115). -/
inductive GroupsException
  | lessThanTwoGroups
  | fromPoolError
  | typeError (kwarg : String)
  | valueError
  | indexError
deriving DecidableEq, Repr

/-- Loop of `evaluate_global_group_effect` over the selected groups
(pigs_groups.py lines 86-96): each group's pool is queried with
`get_statistics(selected_property, selected_statistics='mean',
interval_indexes=...)` — that binding succeeds, `PigsPool.get_statistics`
declares the parameter — and the single ndarray return would be unpacked by
`timeline, averages_per_group[group] = ...`, a two-element unpacking that
raises `ValueError` unless the matrix has exactly two rows.  `except
PigsPoolError` converts a pool error into `PigsGroupsError`, while the
`TypeError` raised inside `get_statistics` propagates uncaught.  The
unpacking arms are dead: `get_statistics` never returns
(`get_statistics_never_ok`). -/
def groupFetchLoop (prop : String) (idxs : Option (List Nat)) :
    List (List Reader) → Except GroupsException Unit
  | [] => Except.ok ()
  | pool :: rest =>
    match get_statistics pool prop "mean" idxs with
    | Except.error (PoolException.typeError k) =>
      Except.error (GroupsException.typeError k)
    | Except.error _ => Except.error GroupsException.fromPoolError
    | Except.ok m =>
      if m.length = 2 then groupFetchLoop prop idxs rest
      else Except.error GroupsException.valueError

/-- Embedding of `PigsGroups.evaluate_global_group_effect` (pigs_groups.py
lines 56-143) as written: the fewer-than-two-groups check, then the group
fetch loop.  The per-position loop of lines 103-137 (NaN / Mann-Whitney /
Kruskal-Wallis per timeline position) is unreachable: it requires every
group fetch to return and unpack, `get_statistics` never returns, and even a
returned two-row matrix would store a single matrix row per group, on which
`averages[i, :]` raises `IndexError` at the first timeline position — the
doubly dead success arm therefore carries that `IndexError`, and the
function can never produce the per-position table. -/
def evaluate_global_group_effect (groups : List (List Reader)) (prop : String)
    (idxs : Option (List Nat)) :
    Except GroupsException (List (List Nat × PValue)) :=
  if groups.length < 2 then Except.error GroupsException.lessThanTwoGroups
  else
    match groupFetchLoop prop idxs groups with
    | Except.error e => Except.error e
    | Except.ok () => Except.error GroupsException.indexError

theorem tdSeconds_self (t : Nat) : tdSeconds t t = 0 := by
  unfold tdSeconds
  omega

theorem tdSeconds_of_le {t0 t1 : Nat} (h : t0 ≤ t1) (hlt : t1 - t0 < 86400) :
    tdSeconds t1 t0 = t1 - t0 := by
  unfold tdSeconds
  omega

theorem findFirst_zero (s : Nat) (p : Nat → Bool) : findFirst s 0 p = none := rfl

theorem findFirst_succ (s n : Nat) (p : Nat → Bool) :
    findFirst s (n + 1) p =
      (if p s then some s else findFirst (s + 1) n p) := by
  unfold findFirst
  rw [List.range'_succ]
  by_cases h : p s <;> simp [List.find?, h]

theorem findFirst_eq_none {s n : Nat} {p : Nat → Bool} :
    findFirst s n p = none ↔ ∀ t, s ≤ t → t < s + n → p t = false := by
  induction n generalizing s with
  | zero => simp [findFirst_zero]; omega
  | succ n ih =>
    rw [findFirst_succ]
    by_cases h : p s
    · rw [if_pos h]
      constructor
      · intro hc; cases hc
      · intro hall
        have := hall s (le_refl s) (by omega)
        rw [h] at this; cases this
    · rw [if_neg h]
      rw [ih]
      constructor
      · intro hall t hst htn
        rcases Nat.eq_or_lt_of_le hst with rfl | hlt
        · exact Bool.eq_false_iff.mpr h
        · exact hall t hlt (by omega)
      · intro hall t hst htn
        exact hall t (by omega) (by omega)

theorem findFirst_eq_some {s n r : Nat} {p : Nat → Bool}
    (h : findFirst s n p = some r) :
    s ≤ r ∧ r < s + n ∧ p r = true ∧ ∀ t, s ≤ t → t < r → p t = false := by
  induction n generalizing s with
  | zero => cases h
  | succ n ih =>
    rw [findFirst_succ] at h
    by_cases hs : p s
    · rw [if_pos hs] at h
      cases h
      exact ⟨le_refl _, by omega, hs, fun t hst htr => by omega⟩
    · rw [if_neg hs] at h
      obtain ⟨h1, h2, h3, h4⟩ := ih h
      refine ⟨by omega, by omega, h3, ?_⟩
      intro t hst htr
      rcases Nat.eq_or_lt_of_le hst with rfl | hlt
      · exact Bool.eq_false_iff.mpr hs
      · exact h4 t hlt htr

theorem findFirst_intro {s n r : Nat} {p : Nat → Bool}
    (h1 : s ≤ r) (h2 : r < s + n) (h3 : p r = true)
    (h4 : ∀ t, s ≤ t → t < r → p t = false) :
    findFirst s n p = some r := by
  induction n generalizing s with
  | zero => omega
  | succ n ih =>
    rw [findFirst_succ]
    rcases Nat.eq_or_lt_of_le h1 with rfl | hlt
    · simp [h3]
    · have hps : p s = false := h4 s (le_refl s) hlt
      rw [if_neg (by rw [hps]; exact Bool.false_ne_true)]
      exact ih (by omega) (by omega) (fun t hst htr => h4 t (by omega) htr)

/-- Shrinking the scanned range does not change a first match that lies inside
the smaller range. -/
theorem findFirst_shrink {s n m r : Nat} {p : Nat → Bool}
    (h : findFirst s n p = some r) (hm : r < s + m) :
    findFirst s m p = some r := by
  obtain ⟨h1, _, h3, h4⟩ := findFirst_eq_some h
  exact findFirst_intro h1 hm h3 h4

theorem pyRange_length (a b : Int) : (pyRange a b).length = (b - a).toNat := by
  unfold pyRange
  rw [List.length_map, List.length_range]

theorem rowDelta_self (times : List Nat) (a : Nat) : rowDelta times a a = 0 :=
  tdSeconds_self _

theorem range'_split (a k n : Nat) (h : k ≤ n) :
    List.range' a n = List.range' a k ++ List.range' (a + k) (n - k) := by
  have h2 := List.range'_append a k (n - k) 1
  have h3 : (n - k) + k = n := by omega
  rw [h3] at h2
  rw [← h2, Nat.one_mul]

theorem walk_foldl_no_trigger (times : List Nat) (record offset : Nat) :
    ∀ (ts : List Nat) (anchor : Nat) (dts acc : List (Nat × Nat)),
      (∀ t ∈ ts, rowDelta times anchor t ≤ record + offset) →
      ts.foldl (walkStep times record offset) (anchor, dts, acc) =
        (anchor, dts ++ ts.map (fun t => (t, rowDelta times anchor t)), acc) := by
  intro ts
  induction ts with
  | nil => intro anchor dts acc _; simp
  | cons t ts ih =>
    intro anchor dts acc h
    have ht : rowDelta times anchor t ≤ record + offset :=
      h t (List.mem_cons_self t ts)
    rw [List.foldl_cons]
    have hstep : walkStep times record offset (anchor, dts, acc) t =
        (anchor, dts ++ [(t, rowDelta times anchor t)], acc) := by
      unfold walkStep
      rw [if_neg (by simp; omega)]
    rw [hstep, ih anchor (dts ++ [(t, rowDelta times anchor t)]) acc
          (fun u hu => h u (List.mem_cons_of_mem t hu))]
    simp

theorem walk_foldl_ghost (times : List Nat) (record offset : Nat) :
    ∀ (ts : List Nat) (anchor : Nat) (dts acc : List (Nat × Nat)),
      (ts.foldl (walkStep times record offset) (anchor, (anchor, 0) :: dts, acc)).2.2 =
      (ts.foldl (walkStep times record offset) (anchor, dts, acc)).2.2 := by
  intro ts
  induction ts with
  | nil => intro anchor dts acc; rfl
  | cons t ts ih =>
    intro anchor dts acc
    rw [List.foldl_cons, List.foldl_cons]
    by_cases hdt : record + offset < rowDelta times anchor t
    · have hfind :
          (((anchor, 0) :: dts) ++ [(t, rowDelta times anchor t)]).find?
              (fun p => decide (record < p.2)) =
            (dts ++ [(t, rowDelta times anchor t)]).find?
              (fun p => decide (record < p.2)) := by
        rw [List.cons_append, List.find?_cons]
        simp
      have h1 : walkStep times record offset (anchor, (anchor, 0) :: dts, acc) t =
          walkStep times record offset (anchor, dts, acc) t := by
        unfold walkStep
        simp only []
        rw [if_pos hdt, if_pos hdt, hfind]
      rw [h1]
    · have h2 : walkStep times record offset (anchor, (anchor, 0) :: dts, acc) t =
          (anchor, (anchor, 0) :: (dts ++ [(t, rowDelta times anchor t)]), acc) := by
        unfold walkStep
        simp only []
        rw [if_neg hdt, List.cons_append]
      have h3 : walkStep times record offset (anchor, dts, acc) t =
          (anchor, dts ++ [(t, rowDelta times anchor t)], acc) := by
        unfold walkStep
        simp only []
        rw [if_neg hdt]
      rw [h2, h3]
      exact ih anchor (dts ++ [(t, rowDelta times anchor t)]) acc

theorem walk_foldl_eq_cycles (times : List Nat) (record offset last : Nat) :
    ∀ (fuel a : Nat) (acc : List (Nat × Nat)), last - a ≤ fuel →
      ((List.range' a (last - a)).foldl (walkStep times record offset)
          (a, [], acc)).2.2 =
        acc ++ recordCycles times record offset fuel a last := by
  intro fuel
  induction fuel with
  | zero =>
    intro a acc h
    have h0 : last - a = 0 := by omega
    rw [h0]
    simp [recordCycles]
  | succ fuel ih =>
    intro a acc h
    cases hcut : firstTrigger times (record + offset) a last with
    | none =>
      have hnone := findFirst_eq_none.mp hcut
      rw [walk_foldl_no_trigger times record offset _ a [] acc ?hno]
      · simp [recordCycles, hcut]
      case hno =>
        intro t ht
        rw [List.mem_range'_1] at ht
        have hf := hnone t ht.1 ht.2
        simp only [decide_eq_false_iff_not, Nat.not_lt] at hf
        exact hf
    | some cut =>
      obtain ⟨hac, hcl, hcp, hcmin⟩ := findFirst_eq_some hcut
      have hdtcut : record + offset < rowDelta times a cut := by
        simpa using hcp
      have hane : a < cut := by
        rcases Nat.eq_or_lt_of_le hac with rfl | hlt
        · rw [rowDelta_self] at hdtcut; omega
        · exact hlt
      have hcut_lt : cut < last := by omega
      cases hr : firstTrigger times record a last with
      | none =>
        exfalso
        have hf := findFirst_eq_none.mp hr cut hac (by omega)
        simp only [decide_eq_false_iff_not, Nat.not_lt] at hf
        omega
      | some r =>
        obtain ⟨har, hrl, hrp, hrmin⟩ := findFirst_eq_some hr
        have hdr : record < rowDelta times a r := by simpa using hrp
        have hrcut : r ≤ cut := by
          by_contra hgt
          push_neg at hgt
          have hf := hrmin cut hac hgt
          simp only [decide_eq_false_iff_not, Nat.not_lt] at hf
          omega
        have hsplit : List.range' a (last - a) =
            List.range' a (cut - a) ++ List.range' cut (last - cut) := by
          rw [range'_split a (cut - a) (last - a) (by omega)]
          congr 1 <;> congr 1 <;> omega
        rw [hsplit, List.foldl_append]
        have hpre : (List.range' a (cut - a)).foldl (walkStep times record offset)
            (a, [], acc) =
            (a, (List.range' a (cut - a)).map (fun t => (t, rowDelta times a t)),
              acc) := by
          have := walk_foldl_no_trigger times record offset
            (List.range' a (cut - a)) a [] acc ?hpno
          · simpa using this
          case hpno =>
            intro t ht
            rw [List.mem_range'_1] at ht
            have hf := hcmin t ht.1 (by omega)
            simp only [decide_eq_false_iff_not, Nat.not_lt] at hf
            exact hf
        rw [hpre]
        have hpeel : List.range' cut (last - cut) =
            cut :: List.range' (cut + 1) (last - cut - 1) := by
          have hx : last - cut = (last - cut - 1) + 1 := by omega
          rw [hx, List.range'_succ]
          simp
        rw [hpeel, List.foldl_cons]
        have hmap : (List.range' a (cut - a)).map
              (fun t => (t, rowDelta times a t)) ++ [(cut, rowDelta times a cut)] =
            (List.range' a (cut - a + 1)).map (fun t => (t, rowDelta times a t)) := by
          have hy : List.range' a (cut - a + 1) =
              List.range' a (cut - a) ++ List.range' cut 1 := by
            rw [range'_split a (cut - a) (cut - a + 1) (by omega)]
            congr 1 <;> congr 1 <;> omega
          rw [hy, List.map_append]
          rfl
        have hshrunk : (List.range' a (cut - a + 1)).find?
              (fun t => decide (record < rowDelta times a t)) = some r := by
          have := findFirst_shrink (m := cut - a + 1) hr (by omega)
          exact this
        have hstep : walkStep times record offset
            (a, (List.range' a (cut - a)).map (fun t => (t, rowDelta times a t)),
              acc) cut = (cut, [], acc ++ [(a, r)]) := by
          unfold walkStep
          simp only []
          rw [if_pos hdtcut, hmap, List.find?_map]
          have hcomp : ((fun p => decide (record < p.2)) ∘
              (fun t => (t, rowDelta times a t))) =
              (fun t => decide (record < rowDelta times a t)) := rfl
          rw [hcomp, hshrunk]
          rfl
        rw [hstep]
        have hih := ih cut (acc ++ [(a, r)]) (by omega)
        rw [hpeel, List.foldl_cons] at hih
        have hstep2 : walkStep times record offset (cut, [], acc ++ [(a, r)]) cut =
            (cut, [(cut, 0)], acc ++ [(a, r)]) := by
          unfold walkStep
          simp only []
          rw [rowDelta_self]
          rw [if_neg (by omega)]
          rfl
        rw [hstep2] at hih
        have hghost := walk_foldl_ghost times record offset
          (List.range' (cut + 1) (last - cut - 1)) cut [] (acc ++ [(a, r)])
        rw [hghost] at hih
        rw [hih]
        simp only [recordCycles, hcut, hr]
        rw [List.append_assoc]
        rfl

/-- Refinement of the inner walk of `set_record_intervals` by its closed-form
cycle description. -/
theorem recordWalk_eq_recordCycles (times : List Nat) (record offset a b : Nat) :
    recordWalk times record offset a b =
      recordCycles times record offset (b - a) a b := by
  unfold recordWalk
  rw [walk_foldl_eq_cycles times record offset b (b - a) a [] (le_refl _)]
  simp

theorem recordCycles_mem (times : List Nat) (record offset : Nat) :
    ∀ (fuel a last : Nat), ∀ p ∈ recordCycles times record offset fuel a last,
      a ≤ p.1 ∧ p.1 < p.2 := by
  intro fuel
  induction fuel with
  | zero => intro a last p hp; simp [recordCycles] at hp
  | succ fuel ih =>
    intro a last p hp
    cases hcut : firstTrigger times (record + offset) a last with
    | none => simp only [recordCycles, hcut] at hp; simp at hp
    | some cut =>
      have hac : a ≤ cut := (findFirst_eq_some hcut).1
      cases hr : firstTrigger times record a last with
      | none =>
        simp only [recordCycles, hcut, hr] at hp
        obtain ⟨h1, h2⟩ := ih cut last p hp
        exact ⟨le_trans hac h1, h2⟩
      | some r =>
        simp only [recordCycles, hcut, hr] at hp
        rcases List.mem_cons.mp hp with rfl | hmem
        · obtain ⟨har, hrl, hrp, hrmin⟩ := findFirst_eq_some hr
          have hdr : record < rowDelta times a r := by simpa using hrp
          have hlt : a < r := by
            rcases Nat.eq_or_lt_of_le har with rfl | hlt
            · rw [rowDelta_self] at hdr; omega
            · exact hlt
          exact ⟨le_refl _, hlt⟩
        · obtain ⟨h1, h2⟩ := ih cut last p hmem
          exact ⟨le_trans hac h1, h2⟩

theorem recordCycles_pairwise (times : List Nat) (record offset : Nat) :
    ∀ (fuel a last : Nat),
      List.Pairwise (fun p q : Nat × Nat => p.2 ≤ q.1)
        (recordCycles times record offset fuel a last) := by
  intro fuel
  induction fuel with
  | zero => intro a last; simp [recordCycles]
  | succ fuel ih =>
    intro a last
    cases hcut : firstTrigger times (record + offset) a last with
    | none => simp [recordCycles, hcut]
    | some cut =>
      cases hr : firstTrigger times record a last with
      | none =>
        simp only [recordCycles, hcut, hr]
        exact ih cut last
      | some r =>
        simp only [recordCycles, hcut, hr]
        refine List.Pairwise.cons ?_ (ih cut last)
        intro q hq
        have hcq := (recordCycles_mem times record offset fuel cut last q hq).1
        obtain ⟨hac, hcl, hcp, hcmin⟩ := findFirst_eq_some hcut
        obtain ⟨har, hrl, hrp, hrmin⟩ := findFirst_eq_some hr
        have hdtcut : record + offset < rowDelta times a cut := by simpa using hcp
        have hrcut : r ≤ cut := by
          by_contra hgt
          push_neg at hgt
          have hf := hrmin cut hac hgt
          simp only [decide_eq_false_iff_not, Nat.not_lt] at hf
          omega
        exact le_trans hrcut hcq

theorem setRecordIntervalsAux_mem (times : List Nat) (tm10 tmax : Nat) :
    ∀ (specs : List (Nat × Nat × Nat × Nat)) (stale : Option Nat)
      (l : List (Nat × Nat)),
      setRecordIntervalsAux times tm10 tmax stale specs = some l →
      ∀ p ∈ l, p.1 < p.2 := by
  intro specs
  induction specs with
  | nil =>
    intro stale l h p hp
    simp only [setRecordIntervalsAux] at h
    injection h with h2
    rw [← h2] at hp
    simp at hp
  | cons spec specs ih =>
    intro stale l h p hp
    obtain ⟨startS, endS, record, offset⟩ := spec
    simp only [setRecordIntervalsAux] at h
    split at h
    · exact absurd h (by simp)
    · rename_i first hfl
      split at h
      · exact absurd h (by simp)
      · rename_i rest haux
        injection h with h2
        rw [← h2] at hp
        rcases List.mem_append.mp hp with hw | hrest
        · rw [recordWalk_eq_recordCycles] at hw
          exact (recordCycles_mem times record offset _ first _ p hw).2
        · exact ih (some first) rest haux p hrest

/-- Claim C1, amended.  Within the bounded region, the walk of
`set_record_intervals` accumulates elapsed time from a moving anchor and, per
cycle, first keeps the rows up to (excluding) the first row whose elapsed time
exceeds `record_seconds` as one record interval, then discards the rows whose
elapsed time lies in the following `offset_seconds`, the next anchor being the
first row whose elapsed time exceeds `record_seconds + offset_seconds`; a tail
in which the elapsed time never exceeds `record_seconds + offset_seconds`
produces no interval.  (The spec claims the opposite cycle order: offset
discarded first, record kept second; see the counterexample.) -/
theorem claim_C1_amended (times : List Nat) (record offset a b : Nat) :
    recordWalk times record offset a b =
      recordCycles times record offset (b - a) a b :=
  recordWalk_eq_recordCycles times record offset a b

/-- Claim C1, counterexample.  For rows at seconds `0,…,9`, one window spec
covering the whole region with `record = 2` and `offset = 3`,
`set_record_intervals` produces the interval `(0, 3)` — the kept rows are the
first `record` seconds of elapsed time from the region start — whereas the
offset-first walk described by the spec would discard rows `0,1,2` and keep
`(3, 5)`. -/
theorem claim_C1_counterexample :
    set_record_intervals [0, 1, 2, 3, 4, 5, 6, 7, 8, 9] 0 100
        [(0, 100, 2, 3)] = some [(0, 3)] ∧
    offsetRecordCycles [0, 1, 2, 3, 4, 5, 6, 7, 8, 9] 2 3 10 0 10 = [(3, 5)] ∧
    some [((0 : Nat), (3 : Nat))] ≠ some [(3, 5)] := by
  refine ⟨by decide, by decide, by decide⟩

/-- Claim C2, amended.  Every record interval produced by one call to
`set_record_intervals` satisfies `first < last`, and the intervals produced
from a single window spec are pairwise non-overlapping and in ascending time
order; the concatenation across several window specs of one call, however, can
repeat or overlap intervals (see the counterexample). -/
theorem claim_C2_amended :
    (∀ (times : List Nat) (tm10 tfinal : Nat)
        (specs : List (Nat × Nat × Nat × Nat)) (l : List (Nat × Nat)),
        set_record_intervals times tm10 tfinal specs = some l →
        ∀ p ∈ l, p.1 < p.2) ∧
    (∀ (times : List Nat) (record offset a b : Nat),
        List.Pairwise (fun p q : Nat × Nat => p.2 ≤ q.1)
          (recordWalk times record offset a b)) := by
  constructor
  · intro times tm10 tfinal specs l h p hp
    exact setRecordIntervalsAux_mem times tm10 _ specs none l h p hp
  · intro times record offset a b
    rw [recordWalk_eq_recordCycles]
    exact recordCycles_pairwise times record offset (b - a) a b

/-- Claim C2, witness: the amended theorem applied to a concrete call. -/
theorem claim_C2_witness : (0 : Nat) < 3 :=
  claim_C2_amended.1 [0, 1, 2, 3, 4, 5, 6, 7, 8, 9] 0 100 [(0, 100, 2, 3)]
    [(0, 3)] (by decide) (0, 3) (by decide)

/-- Claim C2, counterexample.  A call whose window-spec sequence repeats the
same spec twice returns the same interval twice, so the intervals of one call
are not pairwise non-overlapping and ascending. -/
theorem claim_C2_counterexample :
    set_record_intervals [0, 1, 2, 3, 4, 5, 6, 7, 8, 9] 0 100
        [(0, 100, 2, 3), (0, 100, 2, 3)] = some [(0, 3), (0, 3)] ∧
    ¬ List.Pairwise (fun p q : Nat × Nat => p.2 ≤ q.1) [(0, 3), (0, 3)] := by
  refine ⟨by decide, by decide⟩

/-- Claim C4.  The interval indexes selected per subject by
`premortem_statistics` are exactly `[t_initial_interval_index - 1]` followed
by `t_final_interval_index - n_last_intervals + 1 .. t_final_interval_index`,
which is `n_last_intervals + 1` indexes whatever the subject's own interval
count (the count does not enter the computation), and the concrete instance
`n_last_intervals = 2`, `t_initial = 5`, `t_final = 10` yields `[4, 9, 10]`. -/
theorem claim_C4_premortem (n : Nat) (ti tf : Int) :
    premortem_interval_indexes n ti tf =
      [ti - 1] ++ pyRange (tf - (n : Int) + 1) (tf + 1) ∧
    (premortem_interval_indexes n ti tf).length = n + 1 ∧
    premortem_interval_indexes 2 5 10 = [4, 9, 10] := by
  refine ⟨rfl, ?_, by decide⟩
  unfold premortem_interval_indexes
  rw [List.length_append, pyRange_length, List.length_singleton]
  omega

/-- Claim C9 is right and the code is wrong.  The constructor comment says the
fallback to the experiment start should fire when `Tinitial - 10 minutes` is
earlier than the first recorded sample, but the implemented test compares the
timedelta `Tinitial - 00:10:00` against the constant 600 seconds, never
against the first sample: with `Tinitial = 00:30:00` (1800 s) and the first
sample at `01:00:00` (3600 s) the reference 00:20:00 precedes the first sample
yet no fallback happens, and with `Tinitial = 00:15:00` (900 s) and the first
sample at `00:01:00` (60 s) the fallback fires although `Tinitial - 10min`
does not precede the first sample. -/
theorem claim_C9_code_bug :
    mkReference 1800 3600 = (1200, false) ∧ ((1800 : Int) - 600 < 3600) ∧
    mkReference 900 60 = (60, true) ∧ ¬ ((900 : Int) - 600 < 60) := by
  refine ⟨by decide, by decide, by decide, by decide⟩

/-- Claim C10.  Construction fails with the error whose message is
`Invalid value for Tinitial parameters` exactly when every row time is
strictly earlier than the computed reference time; on success the stored
`t_minus_10_index` is the first row at or after the reference time. -/
theorem claim_C10_construction (times : List Nat) (tinitial : Nat) :
    (mkTableIndex times tinitial = Except.error ReaderError.invalidTinitial ↔
      ∀ t ∈ times, t < referenceTime times tinitial) ∧
    (∀ i, mkTableIndex times tinitial = Except.ok i →
      i < times.length ∧ referenceTime times tinitial ≤ times.getD i 0 ∧
      ∀ j, j < i → times.getD j 0 < referenceTime times tinitial) := by
  unfold mkTableIndex t_minus_10_search
  cases hf : findFirst 0 times.length
      (fun i => decide (referenceTime times tinitial ≤ times.getD i 0)) with
  | none =>
    constructor
    · constructor
      · intro _ t ht
        obtain ⟨i, hi, rfl⟩ := List.mem_iff_getElem.mp ht
        have hff := findFirst_eq_none.mp hf i (Nat.zero_le _) (by omega)
        simp only [decide_eq_false_iff_not, Nat.not_le] at hff
        rw [List.getD_eq_getElem times 0 hi] at hff
        exact hff
      · intro _; rfl
    · intro i hok
      exact absurd hok (by simp)
  | some i0 =>
    constructor
    · constructor
      · intro hbad
        exact absurd hbad (by simp)
      · intro hall
        exfalso
        obtain ⟨_, hlen, hp, _⟩ := findFirst_eq_some hf
        simp only [decide_eq_true_eq] at hp
        have hmem : times.getD i0 0 ∈ times := by
          rw [List.getD_eq_getElem times 0 (by omega)]
          exact List.getElem_mem _
        have := hall _ hmem
        omega
    · intro i hok
      injection hok with h2
      obtain ⟨_, hlen, hp, hmin⟩ := findFirst_eq_some hf
      simp only [decide_eq_true_eq] at hp
      subst h2
      refine ⟨by omega, hp, ?_⟩
      intro j hj
      have hjp := hmin j (Nat.zero_le _) hj
      simp only [decide_eq_false_iff_not, Nat.not_le] at hjp
      exact hjp

/-- Claim C10, witness: a table with rows at 3600 s and 3700 s and
`Tinitial = 1800` s constructs successfully with `t_minus_10_index = 0`. -/
theorem claim_C10_witness :
    0 < [3600, 3700].length ∧
    referenceTime [3600, 3700] 1800 ≤ [3600, 3700].getD 0 0 ∧
    ∀ j, j < 0 → [3600, 3700].getD j 0 < referenceTime [3600, 3700] 1800 :=
  (claim_C10_construction [3600, 3700] 1800).2 0 (by rfl)

theorem statsLoop_ok (filename : String) (column : List (Option ℚ))
    (ivs : List (Nat × Nat)) :
    ∀ (idxs : List Nat) (ds : DescStats),
      (∀ i ∈ idxs, i < ivs.length ∧
        (collectData column (ivs.getD i (0, 0))).isEmpty = false) →
      (statsLoop filename column ivs idxs ds).2 = none ∧
      (statsLoop filename column ivs idxs ds).1.intervals =
        ds.intervals ++ idxs.map (· + 1) := by
  intro idxs
  induction idxs with
  | nil => intro ds _; exact ⟨rfl, by simp [statsLoop]⟩
  | cons i rest ih =>
    intro ds h
    obtain ⟨hlt, hne⟩ := h i (List.mem_cons_self i rest)
    have hsome : ivs[i]? = some (ivs.getD i (0, 0)) := by
      rw [List.getElem?_eq_getElem hlt, List.getD_eq_getElem ivs (0, 0) hlt]
    simp only [statsLoop, hsome]
    rw [if_neg (by rw [hne]; exact Bool.false_ne_true)]
    have hres := ih
      { intervals := ds.intervals ++ [i + 1]
        data := ds.data ++ [collectData column (ivs.getD i (0, 0))]
        averages := ds.averages ++ [listMean (collectData column (ivs.getD i (0, 0)))] }
      (fun j hj => h j (List.mem_cons_of_mem i hj))
    refine ⟨hres.1, ?_⟩
    rw [hres.2]
    simp

theorem statsLoop_first_empty (filename : String) (column : List (Option ℚ))
    (ivs : List (Nat × Nat)) :
    ∀ (idxs : List Nat) (ds : DescStats) (k : Nat),
      (∀ i ∈ idxs, i < ivs.length) →
      idxs.find? (fun i => (collectData column (ivs.getD i (0, 0))).isEmpty) =
        some k →
      (statsLoop filename column ivs idxs ds).2 =
        some (ReaderError.emptyInterval (k + 1) filename) := by
  intro idxs
  induction idxs with
  | nil => intro ds k _ hfind; cases hfind
  | cons i rest ih =>
    intro ds k hlt hfind
    have hi : i < ivs.length := hlt i (List.mem_cons_self i rest)
    have hsome : ivs[i]? = some (ivs.getD i (0, 0)) := by
      rw [List.getElem?_eq_getElem hi, List.getD_eq_getElem ivs (0, 0) hi]
    rw [List.find?_cons] at hfind
    cases hE : (collectData column (ivs.getD i (0, 0))).isEmpty with
    | true =>
      rw [hE] at hfind
      injection hfind with h2
      subst h2
      simp only [statsLoop, hsome]
      rw [if_pos hE]
    | false =>
      rw [hE] at hfind
      simp only [statsLoop, hsome]
      rw [if_neg (by rw [hE]; exact Bool.false_ne_true)]
      exact ih _ k (fun j hj => hlt j (List.mem_cons_of_mem i hj)) hfind

/-- Claim C5, amended.  On a call for a property that is not yet in the
statistics cache, with record intervals set and every requested index in range
with at least one parseable value, the returned `intervals` entry lists
precisely the 1-based indexes requested in that call; a later call for the
same property returns the cached result of the earlier call whatever its
`interval_indexes` argument (see the counterexample). -/
theorem claim_C5_amended (r : Reader) (prop : String)
    (column : List (Option ℚ)) (idxs : List Nat) :
    r.columns.lookup prop = some column →
    r.statistics.lookup prop = none →
    r.record_intervals.isEmpty = false →
    (∀ i ∈ idxs, i < r.record_intervals.length ∧
      (collectData column (r.record_intervals.getD i (0, 0))).isEmpty = false) →
    ∃ ds, (get_descriptive_statistics r prop (some idxs)).2 = Except.ok ds ∧
      ds.intervals = idxs.map (· + 1) := by
  intro hcol hcache hivs hidx
  unfold get_descriptive_statistics
  simp only [hcol, hcache]
  rw [if_neg (by rw [hivs]; exact Bool.false_ne_true)]
  obtain ⟨h2, h1⟩ := statsLoop_ok r.filename column r.record_intervals idxs
    { intervals := [], data := [], averages := [] } hidx
  simp only [Option.getD]
  rw [h2]
  exact ⟨_, rfl, by rw [h1]; simp⟩

/-- Claim C5, witness: the amended theorem at a concrete reader with two
record intervals and both indexes requested. -/
theorem claim_C5_witness :
    ∃ ds, (get_descriptive_statistics
        ⟨"pig.csv", [("APs", [some 1, some 2])], [(0, 1), (1, 2)], []⟩
        "APs" (some [0, 1])).2 = Except.ok ds ∧
      ds.intervals = [0, 1].map (· + 1) :=
  claim_C5_amended ⟨"pig.csv", [("APs", [some 1, some 2])], [(0, 1), (1, 2)], []⟩
    "APs" [some 1, some 2] [0, 1] (by decide) (by decide) (by decide) (by decide)

/-- Claim C5, counterexample.  The statistics cache is keyed by property name
only, so a second call for the same property returns the first call's result:
after computing statistics for interval index 0, a request for interval index
1 returns `intervals = [1]` instead of `[2]`. -/
theorem claim_C5_counterexample :
    Except.map DescStats.intervals
      (get_descriptive_statistics
        (get_descriptive_statistics
          ⟨"pig.csv", [("APs", [some 1, some 2])], [(0, 1), (1, 2)], []⟩
          "APs" (some [0])).1
        "APs" (some [1])).2 =
      Except.ok [1] ∧
    ([1] : List Nat) ≠ [2] := by
  refine ⟨by decide, by decide⟩

/-- Claim C6, amended.  On a call for a property that is not yet cached, with
record intervals set and all requested indexes in range, if some requested
interval contains zero parseable values then the call fails with the typed
reader error naming the 1-based index of the first such interval in request
order and the subject's file identifier (a later all-empty interval in the
same request is not the one named; see the counterexample). -/
theorem claim_C6_amended (r : Reader) (prop : String)
    (column : List (Option ℚ)) (idxs : List Nat) (k : Nat) :
    r.columns.lookup prop = some column →
    r.statistics.lookup prop = none →
    r.record_intervals.isEmpty = false →
    (∀ i ∈ idxs, i < r.record_intervals.length) →
    idxs.find?
        (fun i => (collectData column (r.record_intervals.getD i (0, 0))).isEmpty) =
      some k →
    (get_descriptive_statistics r prop (some idxs)).2 =
      Except.error (ReaderError.emptyInterval (k + 1) r.filename) := by
  intro hcol hcache hivs hlt hfind
  unfold get_descriptive_statistics
  simp only [hcol, hcache]
  rw [if_neg (by rw [hivs]; exact Bool.false_ne_true)]
  simp only [Option.getD]
  rw [statsLoop_first_empty r.filename column r.record_intervals idxs
    { intervals := [], data := [], averages := [] } k hlt hfind]

/-- Claim C6, witness: the amended theorem at a concrete reader whose first
interval has no parseable value. -/
theorem claim_C6_witness :
    (get_descriptive_statistics
        ⟨"pig.csv", [("APs", [none, none, some 3])], [(0, 2), (2, 3)], []⟩
        "APs" (some [0, 1])).2 =
      Except.error (ReaderError.emptyInterval (0 + 1) "pig.csv") :=
  claim_C6_amended ⟨"pig.csv", [("APs", [none, none, some 3])], [(0, 2), (2, 3)], []⟩
    "APs" [none, none, some 3] [0, 1] 0
    (by decide) (by decide) (by decide) (by decide) (by decide)

/-- Supporting fact: `PigsPool.get_statistics` never returns a matrix.  With
at least one pig in the pool, binding the reader call raises `TypeError` for
the keyword `selected_statistics` at the first iteration; with none, nothing
is collected and the no-statistics `PigsPoolError` is raised. -/
theorem get_statistics_never_ok (pigs : List Reader) (prop stat : String)
    (idxs : Option (List Nat)) (M : List (List (Option ℚ))) :
    get_statistics pigs prop stat idxs ≠ Except.ok M := by
  cases pigs with
  | nil =>
    intro h
    simp [get_statistics, getStatisticsLoop] at h
  | cons r rest =>
    intro h
    have hfind : poolFetchKwargs.find?
        (fun k => ! readerStatsParams.contains k) = some "selected_statistics" := by
      decide
    have hloop : getStatisticsLoop prop stat idxs (r :: rest) [] =
        Except.error (PoolException.typeError "selected_statistics") := by
      unfold getStatisticsLoop
      rw [hfind]
    unfold get_statistics at h
    rw [hloop] at h
    simp at h

/-- Claim C7 is the intended behaviour and the code is wrong.  The pool
statistics query never returns the NaN-padded matrix the claim describes:
`PigsPool.get_statistics` passes the keyword argument `selected_statistics`
to `PiCCO2FileReader.get_descriptive_statistics`, which does not declare that
parameter, so a pool holding a subject that would yield usable statistics
(here the reader whose two intervals both parse) raises `TypeError` — not
caught by the `except PiCCO2FileReaderError` clause — and an empty pool
raises the no-statistics `PigsPoolError`. -/
theorem claim_C7_code_bug :
    get_statistics
        [⟨"pig.csv", [("APs", [some 1, some 2])], [(0, 1), (1, 2)], []⟩]
        "APs" "mean" none =
      Except.error (PoolException.typeError "selected_statistics") ∧
    get_statistics [] "APs" "mean" none =
      Except.error PoolException.noStatistics ∧
    readerStatsParams.contains "selected_statistics" = false := by
  refine ⟨by decide, by decide, by decide⟩

/-- Claim C8 is the intended behaviour and the code is wrong.  The dense-row
filtering and the Friedman test of `evaluate_global_time_effect` never run:
the `get_statistics` call raises the `TypeError` for the keyword
`selected_statistics` on any pool with a subject (the `except
PiCCO2FileReaderError` clause catches neither it nor the `PigsPoolError` of
an empty pool), so no row is ever dropped and no valid-interval list or
p-value is ever returned. -/
theorem claim_C8_code_bug :
    evaluate_global_time_effect
        [⟨"pig.csv", [("APs", [some 1, some 2])], [(0, 1), (1, 2)], []⟩]
        "APs" none =
      Except.error (PoolException.typeError "selected_statistics") ∧
    evaluate_global_time_effect [] "APs" none =
      Except.error PoolException.noStatistics := by
  refine ⟨by decide, by decide⟩

/-- Claim C3 is the intended behaviour and the code is wrong.  No timeline
position is ever evaluated by `evaluate_global_group_effect`: with two
selected groups each holding a subject, the call raises the uncaught
`TypeError` for the keyword `selected_statistics` from inside
`get_statistics`, before the per-position NaN / Mann-Whitney / Kruskal-Wallis
logic can run (and even a returned matrix would be scrambled by the
`timeline, averages = ...` unpacking); a group with an empty pool surfaces as
a `PigsGroupsError` instead, and only the fewer-than-two-groups check behaves
as documented. -/
theorem claim_C3_code_bug :
    evaluate_global_group_effect
        [[⟨"pig1.csv", [("APs", [some 1])], [(0, 1)], []⟩],
         [⟨"pig2.csv", [("APs", [some 2])], [(0, 1)], []⟩]] "APs" none =
      Except.error (GroupsException.typeError "selected_statistics") ∧
    evaluate_global_group_effect [[], []] "APs" none =
      Except.error GroupsException.fromPoolError ∧
    evaluate_global_group_effect [] "APs" none =
      Except.error GroupsException.lessThanTwoGroups := by
  refine ⟨by decide, by decide, by decide⟩

/-- Claim C6, counterexample.  When two requested intervals both contain zero
parseable values, the call fails naming only the first one: with both
intervals of the request empty, the raised error names interval 1, not
interval 2, although interval 2 also has zero parseable values. -/
theorem claim_C6_counterexample :
    (get_descriptive_statistics
        ⟨"pig.csv", [("APs", [none, none, none, none])], [(0, 2), (2, 4)], []⟩
        "APs" none).2 =
      Except.error (ReaderError.emptyInterval 1 "pig.csv") ∧
    collectData [none, none, none, none]
        ([(0, 2), (2, 4)].getD 1 (0, 0)) = [] ∧
    ReaderError.emptyInterval 1 "pig.csv" ≠
      ReaderError.emptyInterval 2 "pig.csv" := by
  refine ⟨by decide, by decide, by decide⟩

end Inspigtor
